import Mathlib

/-!
Verification of the candidate scoring, selection and fallback logic of
`github_auto_cloner.py` (GitHub Auto Cloner).  Python strings are embedded as
`String` (lists of characters), Python `int` as `Int`, Python `float` scores as
`ℚ` (the weights 0.3/0.5/0.2 and their sums up to the 1.0 clamp are exact in
both binary floating point and ℚ for the quantities compared here), Python
lists as `List`.
-/

/-- Embedding of the `RepoData` dataclass (`github_auto_cloner.py`, lines
55-72): repository metadata plus the computed relevance score and the
materialization flag/path, with the same field defaults. -/
structure RepoData where
  name : String
  owner : String
  url : String
  clone_url : String
  description : String
  stars : Int
  forks : Int
  watchers : Int
  language : String
  created_at : String
  updated_at : String
  pushed_at : String
  industry_relevance : ℚ := 0
  cloned : Bool := false
  clone_path : String := ""
  deriving DecidableEq, Repr

/-- Python `s.lower()`: lower-case every character. -/
def lowerStr (s : String) : String := ⟨s.data.map Char.toLower⟩

/-- Python substring test `needle in hay`. -/
def strIn (needle hay : String) : Bool := decide (needle.data <:+: hay.data)

/-- The test `keyword.lower() in field.lower()` used throughout
`_calculate_industry_relevance`. -/
def kwMatch (kw field : String) : Bool := strIn (lowerStr kw) (lowerStr field)

/-- Embedding of `GitHubAutoCloner._calculate_industry_relevance`
(`github_auto_cloner.py`, lines 274-311).  The keyword list read from
`self.config["search"]["industry_keywords"]` is passed as the explicit
argument `industry_keywords`.  The three accumulation loops (description,
topics, name) are folds in source order; the final score is capped at 1.0. -/
def calculateIndustryRelevance (name description : String) (topics : List String)
    (industry_keywords : List String) : ℚ :=
  if industry_keywords.isEmpty then 1
  else
    let s1 : ℚ := industry_keywords.foldl
      (fun acc kw => if kwMatch kw description then acc + 3/10 else acc) 0
    let s2 : ℚ := topics.foldl
      (fun acc topic => industry_keywords.foldl
        (fun a kw => if kwMatch kw topic then a + 5/10 else a) acc) s1
    let s3 : ℚ := industry_keywords.foldl
      (fun acc kw => if kwMatch kw name then acc + 2/10 else acc) s2
    min s3 1

/-- Number of keywords matching the description (`relevance_score += 0.3` hits). -/
def descMatchCount (description : String) (kws : List String) : Nat :=
  kws.countP (fun kw => kwMatch kw description)

/-- Number of keywords matching the name (`relevance_score += 0.2` hits). -/
def nameMatchCount (name : String) (kws : List String) : Nat :=
  kws.countP (fun kw => kwMatch kw name)

/-- Number of (topic, keyword) pairs matching (`relevance_score += 0.5` hits). -/
def topicsMatchCount (topics : List String) (kws : List String) : Nat :=
  (topics.map (fun t => kws.countP (fun kw => kwMatch kw t))).sum

/-- Embedding of the minimum-relevance filter used in `search_repositories`
(`github_auto_cloner.py`, lines 211-215 and 265-268): the filter runs only
when `min_relevance > 0`. -/
def filterByMinRelevance (min_relevance : ℚ) (repos : List RepoData) : List RepoData :=
  if 0 < min_relevance then
    repos.filter (fun r => decide (min_relevance ≤ r.industry_relevance))
  else repos

/-- Stable insertion for a descending sort: `x` is placed after every element
whose key is greater than or equal to `key x` and before the first element
whose key is strictly smaller. -/
def insertDesc {α β : Type} [LinearOrder β] (key : α → β) (x : α) : List α → List α
  | [] => [x]
  | y :: ys => if key y < key x then x :: y :: ys else y :: insertDesc key x ys

/-- Python `sorted(l, key=key, reverse=True)`: the stable sort by key in
descending order (Python's sort is stable, and `reverse=True` preserves the
input order of elements with equal keys), realized as stable insertion sort. -/
def sortedDesc {α β : Type} [LinearOrder β] (key : α → β) (l : List α) : List α :=
  l.foldl (fun acc x => insertDesc key x acc) []

/-- The sort step of `clone_repositories` (`github_auto_cloner.py`, lines
346-351): `sort_by == "industry_relevance"` sorts by relevance descending,
every other value of `sort_by` falls to the `else` branch and sorts by stars
descending. -/
def sortForClone (sort_by : String) (repos : List RepoData) : List RepoData :=
  if sort_by = "industry_relevance" then
    sortedDesc (fun r => r.industry_relevance) repos
  else
    sortedDesc (fun r => r.stars) repos

/-- Python list slice `l[:n]` including its negative-index semantics:
`l[:n]` with `n < 0` keeps the first `len(l) + n` elements (clamped at 0). -/
def pySliceTo {α : Type} (n : Int) (l : List α) : List α :=
  if 0 ≤ n then l.take n.toNat
  else l.take ((l.length : Int) + n).toNat

/-- The selection step of `clone_repositories` (lines 325-354): the early
return on an empty repository list, then sorting by `sort_by`, then the Python
truncation `repositories[:max_to_clone]`. -/
def selectRepositories (sort_by : String) (max_to_clone : Int)
    (repos : List RepoData) : List RepoData :=
  if repos.isEmpty then []
  else pySliceTo max_to_clone (sortForClone sort_by repos)

/-- Outcome of the attempt to use the live GitHub search inside
`search_repositories`: the client is unavailable (no token / no library), the
search succeeded with the collected per-repository records, or the search
raised an exception with the given message. -/
inductive LiveSearch where
  | unavailable : LiveSearch
  | ok : List RepoData → LiveSearch
  | err : String → LiveSearch

/-- The query-dependent name prefix of the sample branch
(`search_repositories`, lines 230-244). -/
def samplePrefix (query : String) : String :=
  if strIn "food packaging" (lowerStr query) then "food-packaging"
  else if strIn "automation" (lowerStr query) then "automation"
  else if strIn "operations management" (lowerStr query) then "operations-mgmt"
  else if strIn "replit" (lowerStr query) then "replit"
  else "sample"

/-- The query-dependent base relevance of the sample branch (lines 230-244). -/
def sampleRelevance (query : String) : ℚ :=
  if strIn "food packaging" (lowerStr query) then 8/10
  else if strIn "automation" (lowerStr query) then 7/10
  else if strIn "operations management" (lowerStr query) then 9/10
  else if strIn "replit" (lowerStr query) then 7/10
  else 5/10

/-- One synthetic repository, the body of the sample loop (lines 248-263).
The wall-clock timestamps produced by `datetime.datetime.now()` are abstracted
into the parameter `now`; no claim depends on them. -/
def sampleRepo (query : String) (min_stars : Int) (now : String) (i : Nat) : RepoData :=
  { name := samplePrefix query ++ "-repo-" ++ toString i
    owner := "example-user-" ++ toString i
    url := "https://github.com/example-user-" ++ toString i ++ "/"
        ++ samplePrefix query ++ "-repo-" ++ toString i
    clone_url := "https://github.com/example-user-" ++ toString i ++ "/"
        ++ samplePrefix query ++ "-repo-" ++ toString i ++ ".git"
    description := "This is a sample repository about " ++ query
        ++ " for demonstration purposes."
    stars := min_stars + (i : Int) * 10
    forks := (i : Int) * 5
    watchers := (i : Int) * 3
    language := if i % 2 == 0 then "Python" else "JavaScript"
    created_at := now
    updated_at := now
    pushed_at := now
    industry_relevance := sampleRelevance query - (i : ℚ) * (5/100) }

/-- The sample generation loop `for i in range(1, min(max_results, 10) + 1)`
(line 247): indices 1 .. min(max_results, 10), empty when that bound is not
positive (Python `range` semantics). -/
def sampleRepos (query : String) (max_results min_stars : Int) (now : String) :
    List RepoData :=
  (List.range (min max_results 10).toNat).map (fun j => sampleRepo query min_stars now (j + 1))

/-- The `max_results` lookup of the sample branch,
`kwargs.get("max_results", search_config.get("max_results", 5))` (line 247):
the keyword argument if given, else the configured value, else 5. -/
def resolveMaxResultsSample (kwarg cfg : Option Int) : Int :=
  kwarg.getD (cfg.getD 5)

/-- Embedding of the control flow of `search_repositories` after query
construction (lines 156-273): a live success returns the collected records
after the relevance-threshold filter; a live exception (the `except` block at
line 220 catches it, logs, and falls through) and an unavailable client both
run the sample branch, followed by the same relevance-threshold filter. -/
def searchRepositories (live : LiveSearch) (query : String)
    (max_results min_stars : Int) (min_relevance : ℚ) (now : String) : List RepoData :=
  match live with
  | .ok repos => filterByMinRelevance min_relevance repos
  | _ => filterByMinRelevance min_relevance (sampleRepos query max_results min_stars now)

/-- The clone target directory `clone_path / f"{repo.owner}_{repo.name}"`
(line 361), with `/` as path separator. -/
def targetDir (clone_dir : String) (repo : RepoData) : String :=
  clone_dir ++ "/" ++ repo.owner ++ "_" ++ repo.name

/-- One iteration of the cloning loop (lines 360-431), with the outcome of the
external git clone/pull abstracted as `success`: on success the candidate's
`cloned` flag is set and its `clone_path` recorded (lines 386-387 and
415-416); on failure the loop only logs and the candidate is left untouched. -/
def cloneStep (clone_dir : String) (success : Bool) (repo : RepoData) : RepoData :=
  if success then
    { repo with cloned := true, clone_path := targetDir clone_dir repo }
  else repo

/-- The full cloning loop over the selected candidates: each candidate is
processed exactly once, independently of the others. -/
def cloneLoop (clone_dir : String) (success : RepoData → Bool)
    (repos : List RepoData) : List RepoData :=
  repos.map (fun r => cloneStep clone_dir (success r) r)

/-- Python `s.replace(t, r)` for a non-empty needle `t`, scanning left to
right and replacing non-overlapping occurrences, written with explicit fuel
(adequate whenever `fuel ≥ s.length`).  The source only calls `replace` under
the guard `if token and token in error_message`, so the needle is never
empty. -/
def pyReplaceFuel (t r : List Char) : Nat → List Char → List Char
  | _, [] => []
  | 0, s => s
  | n+1, c :: s =>
    if t ≠ [] ∧ t <+: (c :: s) then
      r ++ pyReplaceFuel t r n (s.drop (t.length - 1))
    else c :: pyReplaceFuel t r n s

/-- Python `s.replace(t, r)` on strings (non-empty needle). -/
def pyReplace (s t r : String) : String :=
  ⟨pyReplaceFuel t.data r.data s.data.length s.data⟩

/-- The credential redaction applied to error messages at two of the three
logging sites of the cloning loop (lines 420-424 and 427-431):
`if token and token in error_message:
error_message = error_message.replace(token, "[REDACTED]")`. -/
def redactMessage (token msg : String) : String :=
  if token ≠ "" ∧ strIn token msg = true then pyReplace msg token "[REDACTED]"
  else msg

/-- The authenticated clone URL of lines 365-368: when a token is configured
and the URL contains "github.com", the scheme `https://` is replaced by
`https://{token}@`. -/
def authenticatedCloneUrl (token clone_url : String) : String :=
  if token ≠ "" ∧ strIn "github.com" clone_url = true then
    pyReplace clone_url "https://" ("https://" ++ token ++ "@")
  else clone_url

/-- The log message of line 390: on a GitPython failure the branch logs
`f"GitPython error while cloning {repo.name}: {str(e)}"` — the raw exception
text, with NO redaction — before re-raising to the outer handler. -/
def gitPythonErrorLog (repoName e : String) : String :=
  "GitPython error while cloning " ++ repoName ++ ": " ++ e

/-- The log message of line 424: on a subprocess-branch clone failure the loop
logs `f"Failed to clone {repo.name}: {error_message}"` after applying the
redaction of lines 421-423 to the git stderr text. -/
def failedCloneLog (token repoName stderrText : String) : String :=
  "Failed to clone " ++ repoName ++ ": " ++ redactMessage token stderrText

/-- The log message of line 431: the outer exception handler logs
`f"Error while cloning {repo.url}: {error_message}"` after applying the
redaction of lines 428-430 to the exception text. -/
def cloneExceptionLog (token repoUrl e : String) : String :=
  "Error while cloning " ++ repoUrl ++ ": " ++ redactMessage token e

/-- Concrete repository record used to instantiate theorems on concrete
inputs; all fields not given are defaulted. -/
def mkRepo (nm : String) (st : Int) (rel : ℚ) : RepoData :=
  { name := nm, owner := "o", url := "u", clone_url := "c", description := "d",
    stars := st, forks := 0, watchers := 0, language := "L",
    created_at := "", updated_at := "", pushed_at := "",
    industry_relevance := rel }

lemma foldl_if_add (c : ℚ) (p : String → Bool) :
    ∀ (l : List String) (a : ℚ),
      l.foldl (fun acc kw => if p kw then acc + c else acc) a = a + c * l.countP p := by
  intro l
  induction l with
  | nil => intro a; simp
  | cons x xs ih =>
    intro a
    by_cases h : p x
    · simp only [List.foldl_cons, if_pos h, ih, List.countP_cons, h]
      push_cast
      ring
    · simp only [List.foldl_cons, if_neg h, ih, List.countP_cons, h]
      push_cast
      ring

lemma topics_foldl_add (c : ℚ) (kws : List String) :
    ∀ (topics : List String) (a : ℚ),
      topics.foldl (fun acc topic => kws.foldl
          (fun x kw => if kwMatch kw topic then x + c else x) acc) a
        = a + c * ((topics.map (fun t => kws.countP (fun kw => kwMatch kw t))).sum) := by
  intro topics
  induction topics with
  | nil => intro a; simp
  | cons t ts ih =>
    intro a
    rw [List.foldl_cons, foldl_if_add, ih, List.map_cons, List.sum_cons]
    push_cast
    ring

lemma calculateIndustryRelevance_eq (name description : String) (topics : List String)
    (kws : List String) (h : ¬ kws.isEmpty) :
    calculateIndustryRelevance name description topics kws
      = min ((3/10 : ℚ) * descMatchCount description kws
             + (5/10 : ℚ) * topicsMatchCount topics kws
             + (2/10 : ℚ) * nameMatchCount name kws) 1 := by
  unfold calculateIndustryRelevance
  rw [if_neg h]
  dsimp only
  rw [foldl_if_add, topics_foldl_add, foldl_if_add]
  unfold descMatchCount topicsMatchCount nameMatchCount
  congr 1
  push_cast
  ring

/-- C1: the relevance scorer always returns a value in [0, 1], and with an
empty keyword list it returns exactly 1 whatever the other arguments are. -/
theorem relevance_score_bounded (name description : String) (topics kws : List String) :
    0 ≤ calculateIndustryRelevance name description topics kws ∧
    calculateIndustryRelevance name description topics kws ≤ 1 ∧
    (kws = [] → calculateIndustryRelevance name description topics kws = 1) := by
  by_cases h : kws.isEmpty
  · have he : kws = [] := by simpa using h
    subst he
    refine ⟨?_, ?_, fun _ => ?_⟩ <;> simp [calculateIndustryRelevance]
  · rw [calculateIndustryRelevance_eq _ _ _ _ h]
    have hs : 0 ≤ (3/10 : ℚ) * descMatchCount description kws
        + (5/10 : ℚ) * topicsMatchCount topics kws
        + (2/10 : ℚ) * nameMatchCount name kws := by positivity
    refine ⟨le_min hs (by norm_num), min_le_right _ _, fun he => ?_⟩
    exact absurd (by simp [he]) h

/-- Witness for C1 at a concrete input with an empty keyword list. -/
theorem relevance_score_bounded_witness :
    calculateIndustryRelevance "pk-repo" "desc" ["t"] [] = 1 :=
  (relevance_score_bounded "pk-repo" "desc" ["t"] []).2.2 rfl

/-- C2 counterexample: on the spec scenario (keywords = ["packaging"],
name = "pk-repo", description = "a packaging robot tool",
topics = ["automation"]) the scorer does NOT return 0.5: "packaging" is not a
substring of the name "pk-repo", so there is no +0.2 name contribution. -/
theorem relevance_scenario_not_half :
    calculateIndustryRelevance "pk-repo" "a packaging robot tool" ["automation"] ["packaging"]
      ≠ 1/2 := by
  rw [calculateIndustryRelevance_eq _ _ _ _ (by decide)]
  have h1 : descMatchCount "a packaging robot tool" ["packaging"] = 1 := by decide
  have h2 : topicsMatchCount ["automation"] ["packaging"] = 0 := by decide
  have h3 : nameMatchCount "pk-repo" ["packaging"] = 0 := by decide
  rw [h1, h2, h3]
  rw [min_def]
  norm_num

/-- C2 amended: on that scenario the scorer returns 0.3 — only the description
matches; the keyword is not a substring of the name. -/
theorem relevance_scenario_value :
    calculateIndustryRelevance "pk-repo" "a packaging robot tool" ["automation"] ["packaging"]
      = 3/10 := by
  rw [calculateIndustryRelevance_eq _ _ _ _ (by decide)]
  have h1 : descMatchCount "a packaging robot tool" ["packaging"] = 1 := by decide
  have h2 : topicsMatchCount ["automation"] ["packaging"] = 0 := by decide
  have h3 : nameMatchCount "pk-repo" ["packaging"] = 0 := by decide
  rw [h1, h2, h3]
  rw [min_def]
  norm_num

lemma filterByMinRelevance_zero (repos : List RepoData) :
    filterByMinRelevance 0 repos = repos := by
  simp [filterByMinRelevance]

/-- C5: filtering with a minimum-relevance threshold of 0 is the identity:
the guard `min_relevance > 0` is false, so the filter never runs. -/
theorem filter_zero_threshold_identity (repos : List RepoData) :
    filterByMinRelevance 0 repos = repos :=
  filterByMinRelevance_zero repos

/-- C6: with a fixed non-empty keyword list, the relevance score is
monotonically non-decreasing in the number of keyword matches in each of the
three fields (description, topics, name). -/
theorem relevance_score_monotone (kws : List String) (hk : kws ≠ [])
    (name₁ name₂ desc₁ desc₂ : String) (topics₁ topics₂ : List String)
    (hd : descMatchCount desc₁ kws ≤ descMatchCount desc₂ kws)
    (ht : topicsMatchCount topics₁ kws ≤ topicsMatchCount topics₂ kws)
    (hn : nameMatchCount name₁ kws ≤ nameMatchCount name₂ kws) :
    calculateIndustryRelevance name₁ desc₁ topics₁ kws
      ≤ calculateIndustryRelevance name₂ desc₂ topics₂ kws := by
  have hne : ¬ kws.isEmpty := by simpa using hk
  rw [calculateIndustryRelevance_eq _ _ _ _ hne, calculateIndustryRelevance_eq _ _ _ _ hne]
  apply min_le_min _ le_rfl
  have hd' : (descMatchCount desc₁ kws : ℚ) ≤ descMatchCount desc₂ kws := by
    exact_mod_cast hd
  have ht' : (topicsMatchCount topics₁ kws : ℚ) ≤ topicsMatchCount topics₂ kws := by
    exact_mod_cast ht
  have hn' : (nameMatchCount name₁ kws : ℚ) ≤ nameMatchCount name₂ kws := by
    exact_mod_cast hn
  linarith

/-- Witness for C6: the second input matches the keyword "a" in all three
fields, the first in none. -/
theorem relevance_score_monotone_witness :
    calculateIndustryRelevance "x" "x" [] ["a"]
      ≤ calculateIndustryRelevance "a" "a" ["a"] ["a"] :=
  relevance_score_monotone ["a"] (by decide) "x" "a" "x" "a" [] ["a"]
    (by decide) (by decide) (by decide)

lemma insertDesc_perm {α β : Type} [LinearOrder β] (key : α → β) (x : α) (l : List α) :
    (insertDesc key x l).Perm (x :: l) := by
  induction l with
  | nil => simp [insertDesc]
  | cons y ys ih =>
    unfold insertDesc
    split
    · exact List.Perm.refl _
    · exact (ih.cons y).trans (List.Perm.swap x y ys)

lemma sortedDesc_perm_aux {α β : Type} [LinearOrder β] (key : α → β) :
    ∀ (l acc : List α), (l.foldl (fun acc x => insertDesc key x acc) acc).Perm (l ++ acc) := by
  intro l
  induction l with
  | nil => intro acc; simp
  | cons x xs ih =>
    intro acc
    rw [List.foldl_cons]
    exact ((ih _).trans ((insertDesc_perm key x acc).append_left xs)).trans
      List.perm_middle

lemma sortedDesc_perm {α β : Type} [LinearOrder β] (key : α → β) (l : List α) :
    (sortedDesc key l).Perm l := by
  simpa using sortedDesc_perm_aux key l []

lemma insertDesc_pairwise {α β : Type} [LinearOrder β] (key : α → β) (x : α)
    {l : List α} (h : l.Pairwise (fun a b => key b ≤ key a)) :
    (insertDesc key x l).Pairwise (fun a b => key b ≤ key a) := by
  induction l with
  | nil => simp [insertDesc]
  | cons y ys ih =>
    rw [List.pairwise_cons] at h
    unfold insertDesc
    split
    · rename_i hlt
      rw [List.pairwise_cons]
      refine ⟨?_, List.pairwise_cons.mpr h⟩
      intro b hb
      rcases List.mem_cons.mp hb with rfl | hb
      · exact hlt.le
      · exact (h.1 b hb).trans hlt.le
    · rename_i hnlt
      rw [List.pairwise_cons]
      refine ⟨?_, ih h.2⟩
      intro b hb
      rcases List.mem_cons.mp ((insertDesc_perm key x ys).mem_iff.mp hb) with rfl | hb
      · exact le_of_not_lt hnlt
      · exact h.1 b hb

lemma sortedDesc_pairwise_aux {α β : Type} [LinearOrder β] (key : α → β) :
    ∀ (l acc : List α), acc.Pairwise (fun a b => key b ≤ key a) →
      (l.foldl (fun acc x => insertDesc key x acc) acc).Pairwise
        (fun a b => key b ≤ key a) := by
  intro l
  induction l with
  | nil => intro acc h; simpa using h
  | cons x xs ih =>
    intro acc h
    rw [List.foldl_cons]
    exact ih _ (insertDesc_pairwise key x h)

lemma sortedDesc_pairwise {α β : Type} [LinearOrder β] (key : α → β) (l : List α) :
    (sortedDesc key l).Pairwise (fun a b => key b ≤ key a) :=
  sortedDesc_pairwise_aux key l [] (by simp)

lemma insertDesc_filter_ne {α β : Type} [LinearOrder β] [DecidableEq β] (key : α → β)
    (x : α) (v : β) (hxv : ¬ key x = v) (l : List α) :
    (insertDesc key x l).filter (fun a => decide (key a = v))
      = l.filter (fun a => decide (key a = v)) := by
  induction l with
  | nil => simp [insertDesc, hxv]
  | cons y ys ih =>
    unfold insertDesc
    split
    · simp [List.filter_cons, hxv]
    · simp [List.filter_cons, ih]

lemma insertDesc_filter_eq {α β : Type} [LinearOrder β] [DecidableEq β] (key : α → β)
    (x : α) (v : β) (hxv : key x = v) :
    ∀ {l : List α}, l.Pairwise (fun a b => key b ≤ key a) →
      (insertDesc key x l).filter (fun a => decide (key a = v))
        = l.filter (fun a => decide (key a = v)) ++ [x] := by
  intro l
  induction l with
  | nil => simp [insertDesc, hxv]
  | cons y ys ih =>
    intro h
    rw [List.pairwise_cons] at h
    unfold insertDesc
    split
    · rename_i hlt
      have hnil : (y :: ys).filter (fun a => decide (key a = v)) = [] := by
        rw [List.filter_eq_nil_iff]
        intro b hb
        have hble : key b ≤ key y := by
          rcases List.mem_cons.mp hb with rfl | hb
          · exact le_rfl
          · exact h.1 b hb
        have : key b < key x := lt_of_le_of_lt hble hlt
        simp [ne_of_lt (hxv ▸ this)]
      rw [List.filter_cons_of_pos (by simp [hxv]), hnil]
      rfl
    · rw [List.filter_cons, List.filter_cons, ih h.2]
      by_cases hy : key y = v <;> simp [hy]

lemma sortedDesc_filter_aux {α β : Type} [LinearOrder β] [DecidableEq β] (key : α → β)
    (v : β) :
    ∀ (l acc : List α), acc.Pairwise (fun a b => key b ≤ key a) →
      (l.foldl (fun acc x => insertDesc key x acc) acc).filter
          (fun a => decide (key a = v))
        = acc.filter (fun a => decide (key a = v))
          ++ l.filter (fun a => decide (key a = v)) := by
  intro l
  induction l with
  | nil => intro acc h; simp
  | cons x xs ih =>
    intro acc h
    rw [List.foldl_cons, ih _ (insertDesc_pairwise key x h), List.filter_cons]
    by_cases hx : key x = v
    · rw [insertDesc_filter_eq key x v hx h]
      simp [hx, List.append_assoc]
    · rw [insertDesc_filter_ne key x v hx]
      simp [hx]

lemma sortedDesc_filter {α β : Type} [LinearOrder β] [DecidableEq β] (key : α → β)
    (v : β) (l : List α) :
    (sortedDesc key l).filter (fun a => decide (key a = v))
      = l.filter (fun a => decide (key a = v)) :=
  (sortedDesc_filter_aux key v l [] (by simp)).trans (by simp)

lemma sortForClone_perm (sort_by : String) (l : List RepoData) :
    (sortForClone sort_by l).Perm l := by
  unfold sortForClone
  split
  · exact sortedDesc_perm _ l
  · exact sortedDesc_perm _ l

/-- C3 counterexample: with a negative limit the selection is NOT empty —
Python's `repositories[:max_to_clone]` with `max_to_clone = -1` drops only the
last element, so two candidates with limit -1 yield one candidate, although
-1 ≤ 0. -/
theorem select_negative_limit_nonempty :
    (-1 : Int) ≤ 0 ∧
    selectRepositories "stars" (-1) [mkRepo "a" 10 0, mkRepo "b" 50 0] ≠ [] := by
  refine ⟨by norm_num, ?_⟩
  decide

/-- C3 amended: for a non-negative limit the selection returns at most
`limit` items and limit 0 returns the empty list; for a negative limit Python
slice semantics apply: the last `|limit|` elements of the sorted list are
dropped (empty only when `|limit|` reaches the list length). -/
theorem select_limit_amended (sb : String) (n : Int) (l : List RepoData) :
    (0 ≤ n → ((selectRepositories sb n l).length : Int) ≤ n) ∧
    selectRepositories sb 0 l = [] ∧
    (n < 0 → (selectRepositories sb n l).length = l.length - (-n).toNat) := by
  have hlen : (sortForClone sb l).length = l.length :=
    (sortForClone_perm sb l).length_eq
  refine ⟨fun hn => ?_, ?_, fun hn => ?_⟩
  · by_cases he : l.isEmpty
    · simp only [selectRepositories, if_pos he, List.length_nil]
      exact_mod_cast hn
    · simp only [selectRepositories, if_neg he, pySliceTo, if_pos hn]
      have h1 : ((sortForClone sb l).take n.toNat).length ≤ n.toNat := by
        rw [List.length_take]
        exact min_le_left _ _
      omega
  · by_cases he : l.isEmpty
    · simp [selectRepositories, he]
    · simp [selectRepositories, he, pySliceTo]
  · by_cases he : l.isEmpty
    · have : l = [] := by simpa using he
      subst this
      simp [selectRepositories]
    · simp only [selectRepositories, if_neg he, pySliceTo, if_neg (not_le.mpr hn)]
      rw [List.length_take, hlen]
      omega

/-- Witness for C3 (amended): limit 2 on three candidates returns at most 2. -/
theorem select_limit_amended_witness :
    ((selectRepositories "stars" 2
        [mkRepo "a" 10 0, mkRepo "b" 50 0, mkRepo "c" 30 0]).length : Int) ≤ 2 :=
  (select_limit_amended "stars" 2
    [mkRepo "a" 10 0, mkRepo "b" 50 0, mkRepo "c" 30 0]).1 (by norm_num)

/-- C4: the sort step of `clone_repositories` permutes the candidates; with
`sort_by = "industry_relevance"` it is sorted by relevance descending, with
any other `sort_by` it is sorted by stars descending; and in both cases it is
stable: the candidates with any given key value appear in exactly their input
order (equality of the filtered sublists). -/
theorem select_sort_correct (sb : String) (l : List RepoData) :
    (sortForClone sb l).Perm l ∧
    (sb = "industry_relevance" →
      (sortForClone sb l).Pairwise
          (fun a b => b.industry_relevance ≤ a.industry_relevance) ∧
      ∀ v : ℚ, (sortForClone sb l).filter (fun r => decide (r.industry_relevance = v))
          = l.filter (fun r => decide (r.industry_relevance = v))) ∧
    (sb ≠ "industry_relevance" →
      (sortForClone sb l).Pairwise (fun a b => b.stars ≤ a.stars) ∧
      ∀ v : Int, (sortForClone sb l).filter (fun r => decide (r.stars = v))
          = l.filter (fun r => decide (r.stars = v))) := by
  refine ⟨sortForClone_perm sb l, fun h => ?_, fun h => ?_⟩
  · unfold sortForClone
    rw [if_pos h]
    exact ⟨sortedDesc_pairwise _ l, fun v => sortedDesc_filter _ v l⟩
  · unfold sortForClone
    rw [if_neg h]
    exact ⟨sortedDesc_pairwise _ l, fun v => sortedDesc_filter _ v l⟩

/-- Witness for C4 at the unrecognized sort key "stars": the result is sorted
by stars descending. -/
theorem select_sort_correct_witness :
    (sortForClone "stars" [mkRepo "a" 10 0, mkRepo "b" 50 0]).Pairwise
      (fun a b => b.stars ≤ a.stars) :=
  ((select_sort_correct "stars" [mkRepo "a" 10 0, mkRepo "b" 50 0]).2.2
    (by decide)).1

lemma strIn_append_middle (q pre post : String) :
    strIn q (pre ++ q ++ post) = true := by
  simp only [strIn, decide_eq_true_eq]
  refine ⟨pre.data, post.data, ?_⟩
  simp [String.data_append]

/-- C7: when the live search raises an exception (any message), the search
call returns the same result as when the live source is unavailable — the
synthetic branch followed by the relevance filter, with no retry of the live
source and no propagation of the exception (the function is total) — and
every returned candidate's description contains the original query text. -/
theorem search_error_degrades (msg query : String) (max_results min_stars : Int)
    (min_relevance : ℚ) (now : String) :
    searchRepositories (.err msg) query max_results min_stars min_relevance now
      = searchRepositories .unavailable query max_results min_stars min_relevance now ∧
    searchRepositories (.err msg) query max_results min_stars min_relevance now
      = filterByMinRelevance min_relevance (sampleRepos query max_results min_stars now) ∧
    ∀ r ∈ searchRepositories (.err msg) query max_results min_stars min_relevance now,
      strIn query r.description = true := by
  refine ⟨rfl, rfl, ?_⟩
  intro r hr
  have hr' : r ∈ sampleRepos query max_results min_stars now := by
    simp only [searchRepositories, filterByMinRelevance] at hr
    split at hr
    · exact List.mem_of_mem_filter hr
    · exact hr
  rcases List.mem_map.mp hr' with ⟨j, _, rfl⟩
  exact strIn_append_middle query _ _

/-- Witness for C7: the single synthetic candidate generated for query "q"
after an authentication error has "q" in its description. -/
theorem search_error_degrades_witness :
    strIn "q" (sampleRepo "q" 0 "" 1).description = true := by
  apply (search_error_degrades "boom" "q" 1 0 0 "").2.2
  have hs : searchRepositories (.err "boom") "q" 1 0 0 ""
      = sampleRepos "q" 1 0 "" := filterByMinRelevance_zero _
  rw [hs]
  have h1 : (min (1 : Int) 10).toNat = 1 := by norm_num
  rw [sampleRepos, h1, List.range_succ, List.range_zero]
  simp

/-- C10 counterexample: with a negative `max_results` the sample branch
generates 0 candidates, not `min(max_results, 10)` (which would be negative). -/
theorem sample_count_negative_counterexample :
    ¬ (((sampleRepos "q" (-1) 0 "").length : Int) = min (-1 : Int) 10) := by
  have h1 : (sampleRepos "q" (-1) 0 "").length = 0 := by decide
  rw [h1]
  omega

/-- C10 amended: the sample branch generates `max(0, min(max_results, 10))`
candidates before the relevance filter — at most 10, and exactly
`min(max_results, 10)` whenever `max_results ≥ 0`; `max_results` defaults to 5
in this path when neither the call nor the configuration provides it. -/
theorem sample_count_amended (query : String) (max_results min_stars : Int)
    (now : String) :
    (sampleRepos query max_results min_stars now).length = (min max_results 10).toNat ∧
    (sampleRepos query max_results min_stars now).length ≤ 10 ∧
    (0 ≤ max_results →
      ((sampleRepos query max_results min_stars now).length : Int) = min max_results 10) ∧
    resolveMaxResultsSample none none = 5 := by
  have h : (sampleRepos query max_results min_stars now).length
      = (min max_results 10).toNat := by
    simp [sampleRepos]
  refine ⟨h, ?_, fun hmr => ?_, rfl⟩
  · rw [h]; omega
  · rw [h]; omega

/-- Witness for C10 (amended) at `max_results = 3`. -/
theorem sample_count_amended_witness :
    ((sampleRepos "q" 3 0 "").length : Int) = min (3 : Int) 10 :=
  (sample_count_amended "q" 3 0 "").2.2.1 (by norm_num)

/-- C8: every candidate processed by the cloning loop appears in the loop
result as `cloneStep` of itself; `cloneStep` changes no field other than
`cloned` and `clone_path`; a failed attempt leaves the candidate exactly as it
was; a successful attempt sets `cloned := true` and records the target path;
and the `cloned` flag never reverts from true to false. -/
theorem clone_materialization_invariant (clone_dir : String)
    (success : RepoData → Bool) (repos : List RepoData) (r : RepoData)
    (hr : r ∈ repos) :
    cloneStep clone_dir (success r) r ∈ cloneLoop clone_dir success repos ∧
    cloneStep clone_dir (success r) r
      = { r with cloned := (cloneStep clone_dir (success r) r).cloned,
                 clone_path := (cloneStep clone_dir (success r) r).clone_path } ∧
    (success r = false → cloneStep clone_dir (success r) r = r) ∧
    (success r = true → (cloneStep clone_dir (success r) r).cloned = true ∧
      (cloneStep clone_dir (success r) r).clone_path = targetDir clone_dir r) ∧
    (r.cloned = true → (cloneStep clone_dir (success r) r).cloned = true) := by
  refine ⟨List.mem_map.mpr ⟨r, hr, rfl⟩, ?_, ?_, ?_, ?_⟩ <;>
    cases hs : success r <;> simp [cloneStep, hs]

/-- Witness for C8: a successful attempt on a fresh candidate sets the flag
and the path. -/
theorem clone_materialization_invariant_witness :
    (cloneStep "d" true (mkRepo "a" 1 0)).cloned = true ∧
    (cloneStep "d" true (mkRepo "a" 1 0)).clone_path
      = targetDir "d" (mkRepo "a" 1 0) :=
  (clone_materialization_invariant "d" (fun _ => true) [mkRepo "a" 1 0]
    (mkRepo "a" 1 0) (List.mem_singleton.mpr rfl)).2.2.2.1 rfl

lemma mem_of_infix_append {u X : List Char} :
    ∀ {r : List Char}, u <:+: r ++ X → (∃ a ∈ u, a ∈ r) ∨ u <:+: X := by
  intro r
  induction r with
  | nil => intro h; exact Or.inr (by simpa using h)
  | cons b r' ih =>
    intro h
    rw [List.cons_append] at h
    rcases List.infix_cons_iff.mp h with hpre | hinf
    · cases u with
      | nil => exact Or.inr List.nil_infix
      | cons a u' =>
        have hab : a = b := (List.cons_prefix_cons.mp hpre).1
        exact Or.inl ⟨a, List.mem_cons_self a u', by simp [hab]⟩
    · rcases ih hinf with ⟨a, ha, har⟩ | h1
      · exact Or.inl ⟨a, ha, List.mem_cons_of_mem b har⟩
      · exact Or.inr h1

lemma scan_keeps_clean_head {t r : List Char} (hr : r ≠ []) :
    ∀ (n : Nat) (s u : List Char), u ≠ [] → (∀ a ∈ u, a ∉ r) → s.length ≤ n →
      u <+: pyReplaceFuel t r n s → u <+: s := by
  intro n
  induction n with
  | zero =>
    intro s u hu hd hlen hpre
    have hs : s = [] := List.length_eq_zero.mp (Nat.le_zero.mp hlen)
    subst hs
    simp only [pyReplaceFuel] at hpre
    exact absurd (List.prefix_nil.mp hpre) hu
  | succ n ih =>
    intro s u hu hd hlen hpre
    cases s with
    | nil =>
      simp only [pyReplaceFuel] at hpre
      exact absurd (List.prefix_nil.mp hpre) hu
    | cons c s' =>
      simp only [pyReplaceFuel] at hpre
      split at hpre
      · cases u with
        | nil => exact absurd rfl hu
        | cons a u' =>
          cases r with
          | nil => exact absurd rfl hr
          | cons b r' =>
            have hab : a = b := (List.cons_prefix_cons.mp hpre).1
            exact absurd (by simp [hab] : a ∈ b :: r')
              (hd a (List.mem_cons_self a u'))
      · cases u with
        | nil => exact absurd rfl hu
        | cons a u' =>
          have h1 := List.cons_prefix_cons.mp hpre
          by_cases hu' : u' = []
          · subst hu'
            exact List.cons_prefix_cons.mpr ⟨h1.1, List.nil_prefix⟩
          · have hlen' : s'.length ≤ n := by
              simp only [List.length_cons] at hlen
              omega
            have h2 := ih s' u' hu'
              (fun b hb => hd b (List.mem_cons_of_mem a hb)) hlen' h1.2
            exact List.cons_prefix_cons.mpr ⟨h1.1, h2⟩

lemma scan_removes_needle {t r : List Char} (ht : t ≠ []) (hr : r ≠ [])
    (hd : ∀ a ∈ t, a ∉ r) :
    ∀ (n : Nat) (s : List Char), s.length ≤ n → ¬ t <:+: pyReplaceFuel t r n s := by
  intro n
  induction n with
  | zero =>
    intro s hlen hinf
    have hs : s = [] := List.length_eq_zero.mp (Nat.le_zero.mp hlen)
    subst hs
    simp only [pyReplaceFuel] at hinf
    exact ht (List.infix_nil.mp hinf)
  | succ n ih =>
    intro s hlen hinf
    cases s with
    | nil =>
      simp only [pyReplaceFuel] at hinf
      exact ht (List.infix_nil.mp hinf)
    | cons c s' =>
      simp only [pyReplaceFuel] at hinf
      split at hinf
      · rcases mem_of_infix_append hinf with ⟨a, hat, har⟩ | hX
        · exact hd a hat har
        · refine ih _ ?_ hX
          simp only [List.length_cons] at hlen
          simp only [List.length_drop]
          omega
      · rename_i hcond
        rcases List.infix_cons_iff.mp hinf with hpre | hX
        · cases t with
          | nil => exact ht rfl
          | cons a t' =>
            have h1 := List.cons_prefix_cons.mp hpre
            by_cases ht' : t' = []
            · apply hcond
              subst ht'
              exact ⟨ht, List.cons_prefix_cons.mpr ⟨h1.1, List.nil_prefix⟩⟩
            · have hlen' : s'.length ≤ n := by
                simp only [List.length_cons] at hlen
                omega
              have h2 := scan_keeps_clean_head hr n s' t' ht'
                (fun b hb => hd b (List.mem_cons_of_mem a hb)) hlen' h1.2
              exact hcond ⟨ht, List.cons_prefix_cons.mpr ⟨h1.1, h2⟩⟩
        · refine ih _ ?_ hX
          simp only [List.length_cons] at hlen
          omega

lemma redactMessage_no_needle (token msg : String) (h1 : token ≠ "")
    (h2 : ∀ c ∈ token.data, c ∉ ("[REDACTED]" : String).data) :
    ¬ token.data <:+: (redactMessage token msg).data := by
  have ht : token.data ≠ [] := by
    intro hd0
    apply h1
    apply String.ext
    rw [hd0]
  unfold redactMessage
  split
  · unfold pyReplace
    exact scan_removes_needle ht (by decide) h2 msg.data.length msg.data le_rfl
  · rename_i hcond
    push_neg at hcond
    have hfalse := hcond h1
    intro hinf
    exact hfalse (by simpa [strIn] using hinf)

lemma no_token_in_prefixed_redacted (token pre msg : String) (h1 : token ≠ "")
    (h2 : ∀ c ∈ token.data, c ∉ ("[REDACTED]" : String).data)
    (h3 : ∀ c ∈ token.data, c ∉ pre.data) :
    strIn token (pre ++ redactMessage token msg) = false := by
  rw [strIn, decide_eq_false_iff_not, String.data_append]
  intro hinf
  rcases mem_of_infix_append hinf with ⟨a, hat, hap⟩ | hR
  · exact h3 a hat hap
  · exact redactMessage_no_needle token msg h1 h2 hR

lemma pyReplaceFuel_head_hit {t r : List Char} (ht : t ≠ []) :
    ∀ {s : List Char}, t <+: s → s ≠ [] →
      ∃ X, pyReplaceFuel t r s.length s = r ++ X := by
  intro s hpre hs
  cases s with
  | nil => exact absurd rfl hs
  | cons c s' =>
    refine ⟨pyReplaceFuel t r s'.length (s'.drop (t.length - 1)), ?_⟩
    simp only [List.length_cons, pyReplaceFuel]
    rw [if_pos ⟨ht, hpre⟩]

set_option maxRecDepth 8192 in
/-- C9 counterexample: the claim fails on two concrete inputs.  At a redacted
site, token "ED" in error message "xEDy" yields the logged text
"x[REDACTED]y", which still contains "ED" (inside the marker).  And the
GitPython-branch log of line 390 applies no redaction at all: with token
"tok" in the exception text (as produced by git echoing the authenticated
clone URL of line 368), the logged message contains the token verbatim. -/
theorem redaction_leaks_token :
    (("ED" : String) ≠ "" ∧ strIn "ED" (redactMessage "ED" "xEDy") = true) ∧
    (("tok" : String) ≠ "" ∧
      strIn "tok" (gitPythonErrorLog "repo"
        "fatal: could not read from https://tok@github.com/o/repo.git") = true) := by
  decide

/-- C9 amended: of the error messages logged during materialization, the two
at lines 420-424 (`failedCloneLog`) and 427-431 (`cloneExceptionLog`) are
redacted — every occurrence of a non-empty token in the dynamic error text is
replaced by "[REDACTED]", and the logged line contains no occurrence of the
token provided no character of the token occurs in the marker "[REDACTED]" or
in the static prefix and repository fields of the line.  The log at line 390
(`gitPythonErrorLog`, GitPython branch) is NOT redacted: it embeds the raw
exception text verbatim, so it contains the token whenever the exception text
does — and the authenticated clone URL of line 368, which git errors can
echo, always contains the token for a github.com URL. -/
theorem clone_log_redaction_amended (token repoName repoUrl stderrText e : String)
    (h1 : token ≠ "")
    (h2 : ∀ c ∈ token.data, c ∉ ("[REDACTED]" : String).data) :
    ((∀ c ∈ token.data, c ∉ ("Failed to clone " ++ repoName ++ ": " : String).data) →
      strIn token (failedCloneLog token repoName stderrText) = false) ∧
    ((∀ c ∈ token.data, c ∉ ("Error while cloning " ++ repoUrl ++ ": " : String).data) →
      strIn token (cloneExceptionLog token repoUrl e) = false) ∧
    (strIn token e = true → strIn token (gitPythonErrorLog repoName e) = true) ∧
    (∀ rest : String, strIn "github.com" ("https://" ++ rest) = true →
      strIn token (authenticatedCloneUrl token ("https://" ++ rest)) = true) := by
  refine ⟨fun h3 => ?_, fun h4 => ?_, fun he => ?_, fun rest hgh => ?_⟩
  · exact no_token_in_prefixed_redacted token
      ("Failed to clone " ++ repoName ++ ": ") stderrText h1 h2 h3
  · exact no_token_in_prefixed_redacted token
      ("Error while cloning " ++ repoUrl ++ ": ") e h1 h2 h4
  · rw [strIn, decide_eq_true_eq] at he ⊢
    have hsuf : e.data <:+ (gitPythonErrorLog repoName e).data := by
      refine ⟨("GitPython error while cloning " ++ repoName ++ ": ").data, ?_⟩
      simp [gitPythonErrorLog, String.data_append]
    exact he.trans hsuf.isInfix
  · unfold authenticatedCloneUrl
    rw [if_pos ⟨h1, hgh⟩]
    rw [strIn, decide_eq_true_eq]
    unfold pyReplace
    have ht8 : ("https://" : String).data ≠ [] := by decide
    have hpre : ("https://" : String).data <+: ("https://" ++ rest).data := by
      rw [String.data_append]
      exact List.prefix_append _ _
    have hs : ("https://" ++ rest).data ≠ [] := by
      rw [String.data_append]
      intro hc
      exact absurd (List.append_eq_nil.mp hc).1 (by decide)
    obtain ⟨X, hX⟩ := pyReplaceFuel_head_hit
      (r := ("https://" ++ token ++ "@" : String).data) ht8 hpre hs
    rw [hX]
    have htok : token.data <:+: ("https://" ++ token ++ "@" : String).data := by
      refine ⟨("https://" : String).data, ("@" : String).data, ?_⟩
      simp [String.data_append]
    exact htok.trans (List.prefix_append _ X).isInfix

/-- Witness for C9 (amended): token "zz" is absent from the redacted
subprocess-branch log line, and present verbatim in the unredacted
GitPython-branch log line whose exception text echoes the authenticated URL. -/
theorem clone_log_redaction_amended_witness :
    strIn "zz" (failedCloneLog "zz" "r" "azzb") = false ∧
    strIn "zz" (gitPythonErrorLog "r" "https://zz@github.com/o/r.git") = true := by
  have h := clone_log_redaction_amended "zz" "r" "u" "azzb"
    "https://zz@github.com/o/r.git" (by decide) (by decide)
  exact ⟨h.1 (by decide), h.2.2.1 (by decide)⟩
